import Mathlib

/-!
Verification of the GrantMatch matching/profiling engine.

This file shallowly embeds the core of the repository:
  * `services/match.py`   (tokenizer, fallback scorer, `rank_calls`)
  * `services/profile.py` (recency-weight engine, `build_prof_profile`)
  * `services/calls.py`   (`_normalize_call`)

Conventions of the embedding:
  * Python dict values decoded from JSON are modelled by the inductive `Json`
    (numbers are split into `int` and `float`, mirroring `json.loads`, because
    the code tests `isinstance(idx, int)`; a Python `bool` is a subtype of
    `int`, which the helpers reproduce).
  * Python floats are modelled exactly: the recency weights stored in a
    profile are 4-decimal values, represented as `ℚ`; the year-decay weights
    of `profile.py` need `0.5 ** x` for real `x` and are modelled over `ℝ`.
  * Python `round` (banker's rounding, round-half-to-even) is `pyRound`.
  * Code that can raise is modelled in `Except String`; an external service
    call (`llm_json`) is an input of type `Except String Json`: `.ok j` means
    the retry/repair loop of `services/llm_client.py` eventually produced a
    parseable JSON value `j`, `.error e` means it exhausted its retries and
    raised (`RuntimeError` at llm_client.py:77).
  * Python `set` iteration order is implementation-defined; we use
    first-occurrence order (`dedupKeepFirst`).  Nothing proved below depends
    on this order beyond determinism.
-/

/-- A JSON value as decoded by `json.loads`.  `int` and `float` are kept
separate because `services/match.py` tests `isinstance(idx, int)`. -/
inductive Json where
  | null : Json
  | bool : Bool → Json
  | int : Int → Json
  | float : ℚ → Json
  | str : String → Json
  | arr : List Json → Json
  | obj : List (String × Json) → Json

/-- Python `dict.get`: first binding of the key, `none` when absent. -/
def jsonGet (kvs : List (String × Json)) (k : String) : Option Json :=
  match kvs with
  | [] => none
  | (k', v) :: rest => if k' = k then some v else jsonGet rest k

/-- Python truthiness on a JSON-decoded value (`not x`). -/
def pyFalsy : Json → Bool
  | Json.null => true
  | Json.bool b => !b
  | Json.int n => n == 0
  | Json.float q => q == 0
  | Json.str s => s == ""
  | Json.arr l => l.isEmpty
  | Json.obj l => l.isEmpty

/-- ASCII lowercasing of one character (Python `str.lower`; non-ASCII
case mapping is outside the model). -/
def lowerChar (c : Char) : Char :=
  if 'A' ≤ c ∧ c ≤ 'Z' then Char.ofNat (c.toNat + 32) else c

/-- Python `s.lower()`. -/
def lowerStr (s : String) : String :=
  String.mk (s.data.map lowerChar)

/-- Python `s.strip()`: drop leading and trailing whitespace. -/
def trimStr (s : String) : String :=
  String.mk
    (((s.data.dropWhile Char.isWhitespace).reverse.dropWhile
      Char.isWhitespace).reverse)

/-- Python `s.split()` with no separator: split on whitespace runs and
return the non-empty tokens (accumulator holds the current token
reversed). -/
def splitWsAux : List Char → List Char → List String
  | cur, [] => if cur.isEmpty then [] else [String.mk cur.reverse]
  | cur, c :: rest =>
    if c.isWhitespace then
      if cur.isEmpty then splitWsAux [] rest
      else String.mk cur.reverse :: splitWsAux [] rest
    else splitWsAux (c :: cur) rest

/-- Python `s.split()` (whitespace, no empty tokens). -/
def splitWs (s : String) : List String :=
  splitWsAux [] s.data

/-- Split on newline characters (Python `str.splitlines` for `\n`-separated
text; the `\r` of a `\r\n` line ending is removed by the subsequent
strip). -/
def splitNlAux : List Char → List Char → List String
  | cur, [] => [String.mk cur.reverse]
  | cur, c :: rest =>
    if c = '\n' then String.mk cur.reverse :: splitNlAux [] rest
    else splitNlAux (c :: cur) rest

/-- The lines of a text. -/
def splitNl (s : String) : List String :=
  splitNlAux [] s.data

/-- Digit run parser for `parseIntStr`. -/
def parseDigits : List Char → Option Nat
  | [] => none
  | cs => cs.foldl
      (fun acc c => match acc with
        | none => none
        | some n => if c.isDigit then some (n * 10 + (c.toNat - 48)) else none)
      (some 0)

/-- Python `int(s)` on a string: optional sign and digits after stripping
whitespace (underscore grouping and non-ASCII digits are outside the
model); `none` models the `ValueError`. -/
def parseIntStr (s : String) : Option Int :=
  match (trimStr s).data with
  | '-' :: rest => (parseDigits rest).map (fun n => -(n : Int))
  | '+' :: rest => (parseDigits rest).map (fun n => (n : Int))
  | rest => (parseDigits rest).map (fun n => (n : Int))

/-- Truncation of a rational toward zero, as Python `int(float)` does. -/
def ratTrunc (q : ℚ) : Int :=
  if q < 0 then -(Int.floor (-q)) else Int.floor q

/-- Python `int(x)` on a JSON-decoded value.  Succeeds on ints, bools
(`int(True) = 1`) and floats (truncation toward zero); parses integer
strings; raises (`.error`) on anything else, e.g. `None` or a list. -/
def pyInt : Json → Except String Int
  | Json.int n => Except.ok n
  | Json.bool b => Except.ok (if b then 1 else 0)
  | Json.float q => Except.ok (ratTrunc q)
  | Json.str s =>
    match parseIntStr s with
    | some n => Except.ok n
    | none => Except.error "ValueError: invalid literal for int()"
  | _ => Except.error "TypeError: int() argument"

/-- Python `round(x)` with no digits: round-half-to-even, returning an int. -/
def pyRound (x : ℚ) : Int :=
  let f : Int := Int.floor x
  let r : ℚ := x - (f : ℚ)
  if r < 1/2 then f
  else if 1/2 < r then f + 1
  else if f % 2 = 0 then f else f + 1

/-- Rendering of a nonnegative bonus as Python `f"{x:.1f}"` does
(one decimal place). -/
def fmt1 (x : ℚ) : String :=
  let n := pyRound (x * 10)
  toString (n / 10) ++ "." ++ toString (n % 10)

/-- Is `needle` a contiguous sublist of `hay` (Python substring `in`)? -/
def listInfixOf [DecidableEq α] : List α → List α → Bool
  | needle, [] => needle.isEmpty
  | needle, c :: rest => needle.isPrefixOf (c :: rest) || listInfixOf needle rest

/-- Python `needle in hay` on strings (character-level substring). -/
def strIn (needle hay : String) : Bool :=
  listInfixOf needle.toList hay.toList

/-- Keep the first occurrence of each element (a deterministic stand-in for
Python's implementation-defined `set` iteration order). -/
def dedupKeepFirst [DecidableEq α] (l : List α) : List α :=
  l.foldl (fun acc x => if x ∈ acc then acc else acc ++ [x]) []

/-- One canonical funding-call listing, as consumed by `rank_calls`
(string fields; `""` when unknown). -/
structure Listing where
  agency : String
  title : String
  deadline : String
  published : String
  link : String
  summary : String
  source : String
deriving DecidableEq

/-- The parts of a professor profile that `services/match.py` reads.
`keyword_recency_weights` holds the 4-decimal weights produced by
`profile.py` (exact rationals).  The `domains` key is only echoed into the
prompt and is not modelled. -/
structure Profile where
  themes : List String
  methods_keywords : List String
  keyword_recency_weights : List (String × ℚ)

/-- A listing annotated by ranking (`dict(call)` plus the overlay keys).
`why_fit` and `recommended_pitch` keep the raw JSON the service returned
(they are stored unvalidated by the code). -/
structure RankedListing where
  listing : Listing
  fit_score : Int
  why_fit : Json
  recommended_pitch : Json
  rank_mode : String

/-! ## services/match.py -/

/-- Tokenizer of `services/match.py` (`_normalize_tokens`): lowercase,
replace every character other than `a-z`, `0-9`, whitespace and `-` by a
space, split on whitespace, keep tokens of length at least 3.  The Python
code builds a `set`; we keep a first-occurrence-deduplicated list. -/
def _normalize_tokens (text : String) : List String :=
  let lowered := lowerStr text
  let cleaned := String.mk (lowered.data.map
    (fun c =>
      if ('a' ≤ c ∧ c ≤ 'z') ∨ ('0' ≤ c ∧ c ≤ '9') ∨ c.isWhitespace ∨ c = '-'
      then c else ' '))
  dedupKeepFirst ((splitWs cleaned).filter (fun t => 3 ≤ t.length))

/-- `_recency_overlap_bonus(profile, call_item, cap, scale)`: sum the weights
of the recency keywords whose lowercased form occurs in the joined
title/summary/agency text, then `min(cap, bonus * scale)`. -/
def _recency_overlap_bonus (profile : Profile) (call : Listing)
    (cap scale : ℚ) : ℚ :=
  if profile.keyword_recency_weights.isEmpty then 0
  else
    let call_text :=
      lowerStr (call.title ++ " " ++ call.summary ++ " " ++ call.agency)
    let bonus := profile.keyword_recency_weights.foldl
      (fun b kw =>
        if kw.1 ≠ "" ∧ strIn (lowerStr kw.1) call_text then b + kw.2 else b) 0
    min cap (bonus * scale)

/-- Profile-side blob of `_fallback_score`: `" ".join(methods + themes)`. -/
def profBlob (profile : Profile) : String :=
  String.intercalate " " (profile.methods_keywords ++ profile.themes)

/-- Call-side blob of `_fallback_score`:
`" ".join([agency, title, summary, deadline])`. -/
def callBlob (call : Listing) : String :=
  String.intercalate " " [call.agency, call.title, call.summary, call.deadline]

/-- Token-set intersection `A & B`, in the deterministic order of `A`. -/
def interTokens (a b : List String) : List String :=
  a.filter (fun t => t ∈ b)

/-- The base score of `_fallback_score`: 5 when either token set is empty,
else `min(100, 10 + overlap * 6)`. -/
def fallbackBaseScore (profile : Profile) (call : Listing) : Int :=
  let A := _normalize_tokens (profBlob profile)
  let B := _normalize_tokens (callBlob call)
  if A.isEmpty ∨ B.isEmpty then 5
  else min 100 (10 + 6 * ((interTokens A B).length : Int))

/-- The fixed pitch string of the fallback scorer. -/
def fallbackPitch : String :=
  "Angle: connect the professor’s core methods/themes to the call’s focus. Propose 2–3 aims, identify datasets/testbeds, and highlight prior results."

/-- `_fallback_score(profile, call)`: deterministic keyword-overlap scoring of
one listing, with recency bonus (`cap=20, scale=6`), clamped-rounded into
`[0, 100]`, tagged `rank_mode="fallback"`. -/
def _fallback_score (profile : Profile) (call : Listing) : RankedListing :=
  let A := _normalize_tokens (profBlob profile)
  let B := _normalize_tokens (callBlob call)
  let base_score := fallbackBaseScore profile call
  let recency_bonus := _recency_overlap_bonus profile call 20 6
  let score := max 0 (min 100 (pyRound ((base_score : ℚ) + recency_bonus)))
  let top_hits := (interTokens A B).take 10
  let why :=
    (if top_hits.isEmpty then []
     else ["Keyword overlap: " ++ String.intercalate ", " (top_hits.take 8)])
    ++ (if 0 < recency_bonus then
          ["Recent-publication bonus applied (+" ++ fmt1 recency_bonus ++ ")"]
        else [])
    ++ ["Scored with fallback keyword matcher (LLM ranking unavailable)."]
  { listing := call
    fit_score := score
    why_fit := Json.arr (why.map Json.str)
    recommended_pitch := Json.str fallbackPitch
    rank_mode := "fallback" }

/-- Insert an element into a list that is sorted by descending `fit_score`,
after every element whose score is `≥` its own (this is exactly the stable
behaviour of Python's `list.sort(key=..., reverse=True)`). -/
def insertDesc (x : RankedListing) : List RankedListing → List RankedListing
  | [] => [x]
  | y :: ys =>
    if y.fit_score < x.fit_score then x :: y :: ys else y :: insertDesc x ys

/-- Stable sort by descending `fit_score`
(`out.sort(key=lambda x: x.get("fit_score", 0), reverse=True)`). -/
def sortByScoreDesc (xs : List RankedListing) : List RankedListing :=
  xs.foldl (fun acc x => insertDesc x acc) []

/-- Default used to model `calls[idx]` (the index is always in range where
this is used; see `itemIdx_lt`). -/
def defaultListing : Listing := ⟨"", "", "", "", "", "", ""⟩

/-- `isinstance(x, int)` together with the int value: a Python `bool` is a
subtype of `int` (`True` has value 1), so it passes the check too. -/
def idxAsInt : Json → Option Int
  | Json.int m => some m
  | Json.bool b => some (if b then 1 else 0)
  | _ => none

/-- Validation of one entry's `idx` field
(`not isinstance(idx, int) or idx < 0 or idx >= len(calls)` skips it). -/
def itemIdx (kvs : List (String × Json)) (n : Nat) : Option Nat :=
  match idxAsInt ((jsonGet kvs "idx").getD Json.null) with
  | none => none
  | some m => if 0 ≤ m ∧ m < (n : Int) then some m.toNat else none

/-- `item.get("fit_score", 0) or 0`. -/
def fitScoreField (kvs : List (String × Json)) : Json :=
  let v := (jsonGet kvs "fit_score").getD (Json.int 0)
  if pyFalsy v then Json.int 0 else v

/-- `item.get("why_fit", []) or []`. -/
def whyField (kvs : List (String × Json)) : Json :=
  let v := (jsonGet kvs "why_fit").getD (Json.arr [])
  if pyFalsy v then Json.arr [] else v

/-- `[f"Recent-publication bonus applied (+{b:.1f})"] + why`: list
concatenation raises `TypeError` when `why` is not a list. -/
def prependBonus (b : ℚ) (j : Json) : Except String Json :=
  match j with
  | Json.arr xs =>
    Except.ok (Json.arr
      (Json.str ("Recent-publication bonus applied (+" ++ fmt1 b ++ ")") :: xs))
  | _ => Except.error "TypeError: can only concatenate list"

/-- Merge of one validated entry onto the original listing at index `i`:
`int(...)` of the `fit_score` field (can raise), the clamped-rounded sum
with the `cap=10` recency bonus, the `why_fit` overlay (prefixing the bonus
note can raise on a truthy non-list), pitch, `rank_mode="llm"`. -/
def mergedEntry (profile : Profile) (calls : List Listing)
    (kvs : List (String × Json)) (i : Nat) : Except String RankedListing :=
  match pyInt (fitScoreField kvs) with
  | Except.error e => Except.error e
  | Except.ok base =>
    match
      (if 0 < _recency_overlap_bonus profile (calls.getD i defaultListing) 10 6
       then prependBonus
         (_recency_overlap_bonus profile (calls.getD i defaultListing) 10 6)
         (whyField kvs)
       else Except.ok (whyField kvs)) with
    | Except.error e => Except.error e
    | Except.ok why =>
      Except.ok
        { listing := calls.getD i defaultListing
          fit_score := max 0 (min 100 (pyRound ((base : ℚ)
            + _recency_overlap_bonus profile (calls.getD i defaultListing)
              10 6)))
          why_fit := why
          recommended_pitch :=
            (jsonGet kvs "recommended_pitch").getD (Json.str "")
          rank_mode := "llm" }

/-- Validation and merge of one entry of the service's `ranked` list
(body of the `for item in ranked` loop of `rank_calls`): skip non-dict items
and out-of-range indices (`.ok none`), otherwise merge onto a copy of the
original listing. -/
def mergeOne (profile : Profile) (calls : List Listing) (item : Json) :
    Except String (Option RankedListing) :=
  match item with
  | Json.obj kvs =>
    match itemIdx kvs calls.length with
    | none => Except.ok none
    | some i =>
      match mergedEntry profile calls kvs i with
      | Except.error e => Except.error e
      | Except.ok r => Except.ok (some r)
  | _ => Except.ok none

/-- The whole validation/merge loop over the service's `ranked` entries. -/
def mergeRanked (profile : Profile) (calls : List Listing) :
    List Json → Except String (List RankedListing)
  | [] => Except.ok []
  | item :: rest =>
    match mergeOne profile calls item with
    | Except.error e => Except.error e
    | Except.ok none => mergeRanked profile calls rest
    | Except.ok (some r) =>
      match mergeRanked profile calls rest with
      | Except.error e => Except.error e
      | Except.ok out => Except.ok (r :: out)

/-- Extraction of the `ranked` list from the parsed response:
`data.get("ranked") if isinstance(data, dict) else None`, then
`isinstance(ranked, list)` or raise. -/
def getRankedList : Json → Except String (List Json)
  | Json.obj kvs =>
    match jsonGet kvs "ranked" with
    | some (Json.arr items) => Except.ok items
    | _ => Except.error "LLM returned invalid ranked list format."
  | _ => Except.error "LLM returned invalid ranked list format."

/-- The whole `try:` block of `rank_calls`: parse result of `llm_json`
(`.error` when it raised), extract `ranked`, validate/merge, treat an empty
merge result as failure, sort by descending score and keep entries with
`fit_score ≥ 50`. -/
def serviceRank (profile : Profile) (calls : List Listing)
    (llmResult : Except String Json) : Except String (List RankedListing) :=
  match llmResult with
  | Except.error e => Except.error e
  | Except.ok data =>
    match getRankedList data with
    | Except.error e => Except.error e
    | Except.ok items =>
      match mergeRanked profile calls items with
      | Except.error e => Except.error e
      | Except.ok [] => Except.error "LLM ranked list could not be merged."
      | Except.ok (r :: out) =>
        Except.ok ((sortByScoreDesc (r :: out)).filter
          (fun x => 50 ≤ x.fit_score))

/-- `[msg] + (why or [])`: the fallback scorer always produces a (nonempty)
list, so only the `arr` case is reachable here; Python would raise
`TypeError` on a truthy non-list. -/
def prefixWhy (msg : String) : Json → Json
  | Json.arr xs => Json.arr (Json.str msg :: xs)
  | _ => Json.arr [Json.str msg]

/-- Attach the failure reason to the first (top-ranked) item's `why_fit`. -/
def prefixError (msg : String) : List RankedListing → List RankedListing
  | [] => []
  | r :: rest => { r with why_fit := prefixWhy msg r.why_fit } :: rest

/-- The `except` branch of `rank_calls`: score every original listing with
the fallback scorer, stable-sort descending, and prefix the failure reason
onto the top item. -/
def fallbackAll (profile : Profile) (calls : List Listing) (err : String) :
    List RankedListing :=
  prefixError ("LLM ranking failed: " ++ err)
    (sortByScoreDesc (calls.map (_fallback_score profile)))

/-- `rank_calls(profile, calls, attempt_id)`.  The leading guards of the
Python code (falsy/non-dict profile, non-dict entries of `calls`) are
subsumed by the types; `if not calls: return []` is kept.  `attempt_id`
only seeds service nondeterminism and does not appear in the model: the
service outcome is the explicit `llmResult` input. -/
def rank_calls (profile : Profile) (calls : List Listing)
    (llmResult : Except String Json) : List RankedListing :=
  match calls with
  | [] => []
  | c :: cs =>
    match serviceRank profile (c :: cs) llmResult with
    | Except.ok out => out
    | Except.error e => fallbackAll profile (c :: cs) e

/-! ## services/profile.py -/

/-- `_split_pub_lines`: non-empty stripped lines of the publication text.
Python `splitlines` also splits on `\r` and some unicode breaks; the
newline split plus `trim` is equivalent for `\n`/`\r\n` text. -/
def _split_pub_lines (pub_text : String) : List String :=
  ((splitNl pub_text).map (fun ln => trimStr ln)).filter (fun ln => ln ≠ "")

/-- A word character of the regex `\b` boundary (ASCII approximation of
Python's `\w`: letters, digits, underscore). -/
def isWordChar (c : Char) : Bool :=
  c.isAlphanum || c = '_'

/-- Whether an optional preceding/following character is a word character
(`none` stands for the start or end of the string, which is a boundary). -/
def wordB : Option Char → Bool
  | none => false
  | some c => isWordChar c

/-- Does `c1 c2 c3 c4` spell `19\d{2}` or `20\d{2}`, and what year is it? -/
def year4 (c1 c2 c3 c4 : Char) : Option Nat :=
  if ((c1 = '1' ∧ c2 = '9') ∨ (c1 = '2' ∧ c2 = '0')) ∧ c3.isDigit ∧ c4.isDigit
  then some (1000 * (c1.toNat - 48) + 100 * (c2.toNat - 48)
    + 10 * (c3.toNat - 48) + (c4.toNat - 48))
  else none

/-- Leftmost match of `re.search(r"\b(19\d{2}|20\d{2})\b", line)` over the
character list, `prev` being the character just before the current
position. -/
def scanYear (prev : Option Char) : List Char → Option Nat
  | [] => none
  | c1 :: rest =>
    (match rest with
     | c2 :: c3 :: c4 :: rest2 =>
       if !wordB prev ∧ !wordB rest2.head? then
         year4 c1 c2 c3 c4
       else none
     | _ => none).orElse (fun _ => scanYear (some c1) rest)

/-- `_extract_year_from_line`: first `19xx`/`20xx` word-bounded token, kept
only when `1950 <= y <= 2100`. -/
def _extract_year_from_line (line : String) : Option Int :=
  match scanYear none line.toList with
  | none => none
  | some y => if 1950 ≤ y ∧ y ≤ 2100 then some (y : Int) else none

/-- `_year_weight(year, current_year, half_life_years)`: `0.25` for an
unknown year, else exponential half-life decay `0.5 ** (age / half_life)`
with the age clamped at 0.  The Python signature defaults
`half_life_years = 5.0`; every caller in the repository uses the default,
which the call sites below pass explicitly. -/
noncomputable def _year_weight (year : Option Int) (current_year : Int)
    (half_life_years : ℝ) : ℝ :=
  match year with
  | none => 0.25
  | some y =>
    (0.5 : ℝ) ^ (((max 0 (current_year - y) : Int) : ℝ) / half_life_years)

/-- `scores[k] += w` on a `defaultdict(float)` kept as an insertion-ordered
association list (Python dicts preserve insertion order). -/
def addScore (scores : List (String × ℝ)) (k : String) (w : ℝ) :
    List (String × ℝ) :=
  match scores with
  | [] => [(k, w)]
  | (k', v) :: rest =>
    if k' = k then (k', v + w) :: rest else (k', v) :: addScore rest k w

/-- The accumulation loop of `_build_keyword_recency_weights`: for every
line, add the line's year weight to every keyword whose lowercased form is
a substring of the lowercased line. -/
noncomputable def accumulateScores (kws : List String) (current_year : Int)
    (half_life_years : ℝ) (lines : List String) : List (String × ℝ) :=
  lines.foldl
    (fun sc line =>
      (kws.filter (fun kw => strIn (lowerStr kw) (lowerStr line))).foldl
        (fun sc2 kw =>
          addScore sc2 kw
            (_year_weight (_extract_year_from_line line) current_year
              half_life_years)) sc)
    []

/-- Python `round(x, 4)` producing an exact 4-decimal value.  Mathlib's
`round` rounds half away from even where Python rounds half to even; the
two differ only on exact `5e-5` ties, which none of the proofs below
depend on. -/
noncomputable def round4R (x : ℝ) : ℚ :=
  ((round (x * 10000) : Int) : ℚ) / 10000

/-- `_build_keyword_recency_weights(pub_text, methods_keywords,
current_year)`: strip/drop blank keywords, accumulate recency-weighted
mention counts, and normalize by the maximum score (`maxv or 1.0`),
rounding to 4 decimals.  `half_life_years` is threaded explicitly here;
the Python code reaches `_year_weight`'s default of `5.0`
(the spec's §4.1 contract names the same parameter and default). -/
noncomputable def _build_keyword_recency_weights (pub_text : String)
    (methods_keywords : List String) (current_year : Int)
    (half_life_years : ℝ) : List (String × ℚ) :=
  let lines := _split_pub_lines pub_text
  let kws := (methods_keywords.map (fun k => trimStr k)).filter (fun k => k ≠ "")
  let scores := accumulateScores kws current_year half_life_years lines
  match scores with
  | [] => []
  | s₀ :: rest =>
    let m := rest.foldl (fun a p => max a p.2) s₀.2
    let maxv := if m = 0 then 1 else m
    (s₀ :: rest).map (fun p => (p.1, round4R (p.2 / maxv)))

/-- The `methods_keywords` list of a parsed profile response:
`profile.get("methods_keywords", [])` with the non-dict and non-list
fallbacks to `[]` applied. -/
def jsonMethods : Json → List Json
  | Json.obj kvs =>
    match jsonGet kvs "methods_keywords" with
    | some (Json.arr xs) => xs
    | _ => []
  | _ => []

/-- The `[k.strip() for k in kws if str(k).strip()]` comprehension reaches
`k.strip()` on every element whose `str()` is truthy; a non-string element
therefore raises `AttributeError`.  This converts the JSON elements to
strings (erroring at the first non-string); the stripping/filtering itself
happens inside `_build_keyword_recency_weights`. -/
def pyStrKeywords : List Json → Except String (List String)
  | [] => Except.ok []
  | Json.str s :: rest =>
    match pyStrKeywords rest with
    | Except.error e => Except.error e
    | Except.ok r => Except.ok (s :: r)
  | _ :: _ => Except.error "AttributeError: object has no attribute strip"

/-- Python dict assignment `d[k] = v`: replace in place when the key
exists, else append. -/
def jsonSet (kvs : List (String × Json)) (k : String) (v : Json) :
    List (String × Json) :=
  match kvs with
  | [] => [(k, v)]
  | (k', v') :: rest =>
    if k' = k then (k, v) :: rest else (k', v') :: jsonSet rest k v

/-- The recency-weight dict as stored back into the profile JSON. -/
def jsonOfWeights (w : List (String × ℚ)) : Json :=
  Json.obj (w.map (fun p => (p.1, Json.float p.2)))

/-- `build_prof_profile(pubs_text, proposals_text)`: submit the truncated
texts to the service (the prompt itself is not modelled; `llmResult` is the
outcome of `llm_json`, which raises when the response never parses), fall
back to `{}` when the parsed value is not a dict and to `[]` when
`methods_keywords` is not a list, then attach the locally computed
`keyword_recency_weights` over the original, untruncated publication text.
`current_year` models `datetime.now().year`; the half-life reaches
`_year_weight`'s default `5.0`. -/
noncomputable def build_prof_profile (pubs_text proposals_text : String)
    (current_year : Int) (llmResult : Except String Json) :
    Except String Json :=
  match llmResult with
  | Except.error e => Except.error e
  | Except.ok parsed =>
    let profile := match parsed with
      | Json.obj kvs => Json.obj kvs
      | _ => Json.obj []
    match pyStrKeywords (jsonMethods profile) with
    | Except.error e => Except.error e
    | Except.ok kws =>
      let w := _build_keyword_recency_weights pubs_text kws current_year 5
      match profile with
      | Json.obj kvs =>
        Except.ok (Json.obj (jsonSet kvs "keyword_recency_weights"
          (jsonOfWeights w)))
      | _ => Except.ok (Json.obj [("keyword_recency_weights", jsonOfWeights w)])

/-! ## services/calls.py -/

/-- `raw.get(k)`: `None` (i.e. `Json.null`, falsy) when the key is absent. -/
def pyGet (c : List (String × Json)) (k : String) : Json :=
  (jsonGet c k).getD Json.null

/-- Python `a or b` on JSON-decoded values. -/
def pyOr (a b : Json) : Json :=
  if pyFalsy a then b else a

/-- `_normalize_call(c, agency_default)`: remap many possible field names
into one schema with a fixed priority chain per field.  Note that the
output record has no `source` key: the raw `source` value is only consumed
as a fallback for `agency`. -/
def _normalize_call (c : List (String × Json)) (agency_default : String) :
    List (String × Json) :=
  [("agency", pyOr (pyGet c "agency")
      (pyOr (pyGet c "source") (Json.str agency_default))),
   ("title", pyOr (pyGet c "title") (pyOr (pyGet c "opportunityTitle")
      (pyOr (pyGet c "name") (Json.str "")))),
   ("deadline", pyOr (pyGet c "deadline") (pyOr (pyGet c "closeDate")
      (pyOr (pyGet c "dueDate") (Json.str "")))),
   ("published", pyOr (pyGet c "published") (pyOr (pyGet c "postDate")
      (pyOr (pyGet c "publishDate") (Json.str "")))),
   ("link", pyOr (pyGet c "link") (pyOr (pyGet c "url")
      (pyOr (pyGet c "opportunityURL") (pyOr (pyGet c "href")
        (Json.str ""))))),
   ("summary", pyOr (pyGet c "summary") (pyOr (pyGet c "synopsis")
      (pyOr (pyGet c "description") (Json.str ""))))]

/-! ## Concrete example inputs for the claim witnesses and counterexamples -/

def c3Profile : Profile := ⟨[], ["robotics"], []⟩

def c3L1 : Listing := ⟨"NSF", "Alpha grant", "", "", "", "", ""⟩

def c3L2 : Listing := ⟨"DOE", "Beta grant", "", "", "", "", ""⟩

def c10Profile : Profile := ⟨[], ["robotics"], []⟩

def c10Listing : Listing := ⟨"NSF", "Alpha grant", "", "", "", "", ""⟩

def c10Item : Json := Json.obj [("idx", Json.int 0), ("fit_score", Json.int 30)]

def c10Data : Json := Json.obj [("ranked", Json.arr [c10Item])]

def c10Merged : RankedListing :=
  { listing := c10Listing
    fit_score := 30
    why_fit := Json.arr []
    recommended_pitch := Json.str ""
    rank_mode := "llm" }

def c1Profile : Profile := ⟨[], ["robotics"], []⟩

def c1Listing : Listing := ⟨"NSF", "Robotics grant", "", "", "", "", ""⟩

def c1Response : Except String Json :=
  Except.ok (Json.obj [("ranked", Json.arr [])])

def c2Profile : Profile := ⟨[], ["robotics"], []⟩

def c2L1 : Listing := ⟨"NSF", "Alpha grant", "", "", "", "", ""⟩

def c2L2 : Listing := ⟨"DOE", "Beta grant", "", "", "", "", ""⟩

def c2Response : Except String Json :=
  Except.ok (Json.obj [("ranked", Json.arr
    [Json.obj [("idx", Json.int 1), ("fit_score", Json.int 90)],
     Json.obj [("idx", Json.int 0), ("fit_score", Json.int 80)]])])

def c2wListing : Listing := ⟨"NSF", "Gamma grant", "", "", "", "", ""⟩

def c2wResponse : Except String Json :=
  Except.ok (Json.obj [("ranked", Json.arr
    [Json.obj [("idx", Json.int 0), ("fit_score", Json.int 60)]])])

def c2wEntry : RankedListing :=
  { listing := c2wListing
    fit_score := 60
    why_fit := Json.arr []
    recommended_pitch := Json.str ""
    rank_mode := "llm" }

def c8Profile : Profile := ⟨[], [], []⟩

def c8L1 : Listing := ⟨"NSF", "Alpha grant", "", "", "", "", ""⟩

def c8L2 : Listing := ⟨"DOE", "Beta grant", "", "", "", "", ""⟩

def c8Response : Except String Json :=
  Except.ok (Json.obj [("ranked", Json.arr
    [Json.obj [("idx", Json.int 1), ("fit_score", Json.int 60)],
     Json.obj [("idx", Json.int 0), ("fit_score", Json.int 60)]])])

/-! ## Ordering infrastructure -/

/-- Descending order on `fit_score` (the sort key of `rank_calls`). -/
abbrev scoreGe (a b : RankedListing) : Prop := b.fit_score ≤ a.fit_score

/-- Entries of a ranked list with one given score, in list order. -/
def filterScore (k : Int) (l : List RankedListing) : List RankedListing :=
  l.filter (fun r => r.fit_score == k)

/-- Projection forgetting the explanation fields (which the error-note
prefixing of the fallback path mutates on the head entry). -/
def projLS (r : RankedListing) : Listing × Int := (r.listing, r.fit_score)

theorem mem_insertDesc {x a : RankedListing} {l : List RankedListing} :
    a ∈ insertDesc x l ↔ a = x ∨ a ∈ l := by
  induction l with
  | nil => simp [insertDesc]
  | cons y ys ih =>
    simp only [insertDesc]
    by_cases h : y.fit_score < x.fit_score
    · simp only [if_pos h, List.mem_cons]
    · simp only [if_neg h, List.mem_cons, ih]
      tauto

theorem perm_insertDesc (x : RankedListing) (l : List RankedListing) :
    (insertDesc x l).Perm (x :: l) := by
  induction l with
  | nil => simp [insertDesc]
  | cons y ys ih =>
    simp only [insertDesc]
    by_cases h : y.fit_score < x.fit_score
    · rw [if_pos h]
    · rw [if_neg h]
      exact (ih.cons y).trans (List.Perm.swap x y ys)

theorem pairwise_insertDesc (x : RankedListing) {l : List RankedListing}
    (h : l.Pairwise scoreGe) : (insertDesc x l).Pairwise scoreGe := by
  induction l with
  | nil => simp [insertDesc, scoreGe]
  | cons y ys ih =>
    rw [List.pairwise_cons] at h
    obtain ⟨hy, hys⟩ := h
    simp only [insertDesc]
    by_cases hcmp : y.fit_score < x.fit_score
    · rw [if_pos hcmp]
      refine List.Pairwise.cons ?_ (List.Pairwise.cons hy hys)
      intro b hb
      rcases List.mem_cons.mp hb with rfl | hb
      · exact le_of_lt hcmp
      · exact le_trans (hy b hb) (le_of_lt hcmp)
    · rw [if_neg hcmp]
      refine List.Pairwise.cons ?_ (ih hys)
      intro b hb
      rcases mem_insertDesc.mp hb with rfl | hb
      · exact le_of_not_lt hcmp
      · exact hy b hb

theorem filterScore_eq_nil_of_lt {k : Int} {l : List RankedListing}
    (h : ∀ r ∈ l, r.fit_score < k) : filterScore k l = [] := by
  induction l with
  | nil => rfl
  | cons y ys ih =>
    have hy := h y (List.mem_cons_self y ys)
    simp only [filterScore, List.filter_cons]
    rw [if_neg (by simp only [beq_iff_eq]; omega)]
    exact ih (fun r hr => h r (List.mem_cons_of_mem y hr))

theorem filterScore_insertDesc (k : Int) (x : RankedListing)
    {l : List RankedListing} (h : l.Pairwise scoreGe) :
    filterScore k (insertDesc x l)
      = if x.fit_score = k then filterScore k l ++ [x]
        else filterScore k l := by
  induction l with
  | nil =>
    by_cases hx : x.fit_score = k <;>
      simp [insertDesc, filterScore, List.filter_cons, hx]
  | cons y ys ih =>
    rw [List.pairwise_cons] at h
    obtain ⟨hy, hys⟩ := h
    simp only [insertDesc]
    have hcons : ∀ (z : RankedListing) (zs : List RankedListing),
        filterScore k (z :: zs)
          = if z.fit_score = k then z :: filterScore k zs
            else filterScore k zs := by
      intro z zs
      by_cases hzk : z.fit_score = k
      · simp only [filterScore, List.filter_cons]
        rw [if_pos (by simp only [beq_iff_eq]; exact hzk), if_pos hzk]
      · simp only [filterScore, List.filter_cons]
        rw [if_neg (by simp only [beq_iff_eq]; exact hzk), if_neg hzk]
    by_cases hcmp : y.fit_score < x.fit_score
    · rw [if_pos hcmp]
      by_cases hx : x.fit_score = k
      · have hnil : filterScore k (y :: ys) = [] := by
          refine filterScore_eq_nil_of_lt ?_
          intro r hr
          rcases List.mem_cons.mp hr with rfl | hr
          · omega
          · have hle := hy r hr
            simp only [scoreGe] at hle
            omega
        rw [if_pos hx, hcons x (y :: ys), if_pos hx, hnil]
        rfl
      · rw [if_neg hx, hcons x (y :: ys), if_neg hx]
    · rw [if_neg hcmp]
      have hrec := ih hys
      rw [hcons y (insertDesc x ys), hcons y ys, hrec]
      by_cases hx : x.fit_score = k <;> by_cases hyk : y.fit_score = k <;>
        simp [hx, hyk]

theorem sortAux_pairwise (xs : List RankedListing) :
    ∀ acc, acc.Pairwise scoreGe →
      (xs.foldl (fun a x => insertDesc x a) acc).Pairwise scoreGe := by
  induction xs with
  | nil => intro acc h; exact h
  | cons x rest ih => intro acc h; exact ih _ (pairwise_insertDesc x h)

theorem sortAux_perm (xs : List RankedListing) :
    ∀ acc, (xs.foldl (fun a x => insertDesc x a) acc).Perm (acc ++ xs) := by
  induction xs with
  | nil => intro acc; simp
  | cons x rest ih =>
    intro acc
    refine (ih (insertDesc x acc)).trans ?_
    refine (List.Perm.append_right rest (perm_insertDesc x acc)).trans ?_
    exact List.perm_middle.symm

theorem sortAux_filterScore (k : Int) (xs : List RankedListing) :
    ∀ acc, acc.Pairwise scoreGe →
      filterScore k (xs.foldl (fun a x => insertDesc x a) acc)
        = filterScore k acc ++ filterScore k xs := by
  induction xs with
  | nil => intro acc h; simp [filterScore]
  | cons x rest ih =>
    intro acc h
    rw [List.foldl_cons, ih _ (pairwise_insertDesc x h),
      filterScore_insertDesc k x h]
    by_cases hx : x.fit_score = k
    · simp [filterScore, List.filter_cons, hx, List.append_assoc]
    · simp [filterScore, List.filter_cons, hx]

theorem sort_pairwise (xs : List RankedListing) :
    (sortByScoreDesc xs).Pairwise scoreGe :=
  sortAux_pairwise xs [] List.Pairwise.nil

theorem sort_perm (xs : List RankedListing) : (sortByScoreDesc xs).Perm xs :=
  sortAux_perm xs []

theorem sort_filterScore (k : Int) (xs : List RankedListing) :
    filterScore k (sortByScoreDesc xs) = filterScore k xs := by
  have := sortAux_filterScore k xs [] List.Pairwise.nil
  simpa [filterScore] using this

/-! ## Fallback-path lemmas -/

theorem fallback_listing (p : Profile) (c : Listing) :
    (_fallback_score p c).listing = c := rfl

theorem fallback_rank_mode (p : Profile) (c : Listing) :
    (_fallback_score p c).rank_mode = "fallback" := rfl

theorem prefixError_map_listing (m : String) (l : List RankedListing) :
    (prefixError m l).map RankedListing.listing
      = l.map RankedListing.listing := by
  cases l <;> rfl

theorem prefixError_map_projLS (m : String) (l : List RankedListing) :
    (prefixError m l).map projLS = l.map projLS := by
  cases l <;> rfl

theorem prefixError_length (m : String) (l : List RankedListing) :
    (prefixError m l).length = l.length := by
  cases l <;> rfl

theorem prefixError_pairwise (m : String) {l : List RankedListing}
    (h : l.Pairwise scoreGe) : (prefixError m l).Pairwise scoreGe := by
  cases l with
  | nil => exact h
  | cons r rest =>
    rw [List.pairwise_cons] at h
    exact List.Pairwise.cons (fun b hb => h.1 b hb) h.2

theorem fallbackAll_map_listing_perm (p : Profile) (calls : List Listing)
    (e : String) :
    ((fallbackAll p calls e).map RankedListing.listing).Perm calls := by
  unfold fallbackAll
  rw [prefixError_map_listing]
  have h1 := (sort_perm (calls.map (_fallback_score p))).map
    RankedListing.listing
  refine h1.trans ?_
  rw [List.map_map]
  have : (RankedListing.listing ∘ _fallback_score p) = id := by
    funext c
    rfl
  rw [this, List.map_id]

theorem fallbackAll_length (p : Profile) (calls : List Listing) (e : String) :
    (fallbackAll p calls e).length = calls.length := by
  unfold fallbackAll
  rw [prefixError_length, (sort_perm _).length_eq, List.length_map]

theorem fallbackAll_pairwise (p : Profile) (calls : List Listing)
    (e : String) : (fallbackAll p calls e).Pairwise scoreGe :=
  prefixError_pairwise _ (sort_pairwise _)

/-! ## Merge-path lemmas -/

theorem getD_mem_of_lt {α : Type} {l : List α} {i : Nat} (h : i < l.length)
    (d : α) : l.getD i d ∈ l := by
  induction l generalizing i with
  | nil => simp at h
  | cons x xs ih =>
    cases i with
    | zero => simp [List.getD]
    | succ j =>
      have : xs.getD j d ∈ xs := ih (by simpa using h)
      simpa [List.getD] using Or.inr this

theorem itemIdx_lt {kvs : List (String × Json)} {n i : Nat}
    (h : itemIdx kvs n = some i) : i < n := by
  unfold itemIdx at h
  split at h
  · cases h
  · split at h
    · injection h with h'
      omega
    · cases h

theorem mergedEntry_shape {p : Profile} {calls : List Listing}
    {kvs : List (String × Json)} {i : Nat} {r : RankedListing}
    (h : mergedEntry p calls kvs i = Except.ok r) :
    r.listing = calls.getD i defaultListing ∧ r.rank_mode = "llm" := by
  unfold mergedEntry at h
  split at h
  · cases h
  · split at h
    · cases h
    · injection h with h'
      subst h'
      exact ⟨rfl, rfl⟩

theorem mergeOne_ok_some {p : Profile} {calls : List Listing} {item : Json}
    {r : RankedListing} (h : mergeOne p calls item = Except.ok (some r)) :
    r.listing ∈ calls ∧ r.rank_mode = "llm" := by
  unfold mergeOne at h
  split at h
  · rename_i kvs
    split at h
    · cases h
    · rename_i i hi
      split at h
      · cases h
      · rename_i r₀ hr₀
        injection h with h'
        injection h' with h''
        subst h''
        obtain ⟨hl, hm⟩ := mergedEntry_shape hr₀
        rw [hl, hm]
        exact ⟨getD_mem_of_lt (itemIdx_lt hi) _, rfl⟩
  · cases h

theorem mergeRanked_mem {p : Profile} {calls : List Listing}
    {items : List Json} {out : List RankedListing}
    (h : mergeRanked p calls items = Except.ok out) :
    ∀ r ∈ out, r.listing ∈ calls ∧ r.rank_mode = "llm" := by
  induction items generalizing out with
  | nil =>
    unfold mergeRanked at h
    injection h with h'
    subst h'
    intro r hr
    cases hr
  | cons item rest ih =>
    unfold mergeRanked at h
    split at h
    · cases h
    · exact ih h
    · rename_i r₀ hr₀
      split at h
      · cases h
      · rename_i out' hout'
        injection h with h'
        subst h'
        intro r hr
        rcases List.mem_cons.mp hr with rfl | hr
        · exact mergeOne_ok_some hr₀
        · exact ih hout' r hr

theorem itemIdx_zero (kvs : List (String × Json)) : itemIdx kvs 0 = none := by
  unfold itemIdx
  split
  · rfl
  · rw [if_neg (by omega)]

theorem mergeOne_nil_calls (p : Profile) (item : Json) :
    mergeOne p [] item = Except.ok none := by
  unfold mergeOne
  split
  · rename_i kvs
    rw [show ([] : List Listing).length = 0 from rfl, itemIdx_zero]
  · rfl

theorem mergeRanked_nil_calls (p : Profile) (items : List Json) :
    mergeRanked p [] items = Except.ok [] := by
  induction items with
  | nil => rfl
  | cons item rest ih =>
    unfold mergeRanked
    rw [mergeOne_nil_calls]
    exact ih

/-- Inversion of a successful service path: there is a nonempty merged
batch, all of whose entries are copies of input listings tagged `llm`, and
the output is that batch sorted then thresholded at 50. -/
theorem serviceRank_ok_shape {p : Profile} {calls : List Listing}
    {res : Except String Json} {out : List RankedListing}
    (h : serviceRank p calls res = Except.ok out) :
    ∃ merged, merged ≠ []
      ∧ (∀ r ∈ merged, r.listing ∈ calls ∧ r.rank_mode = "llm")
      ∧ out = (sortByScoreDesc merged).filter (fun x => 50 ≤ x.fit_score) := by
  unfold serviceRank at h
  split at h
  · cases h
  · split at h
    · cases h
    · split at h
      · cases h
      · cases h
      · rename_i r merged' hmerged
        injection h with h'
        exact ⟨r :: merged', by simp, mergeRanked_mem hmerged, h'.symm⟩

/-! ## Recency-engine lemmas -/

theorem year_weight_pos (y : Option Int) (cy : Int) (hl : ℝ) :
    0 < _year_weight y cy hl := by
  cases y with
  | none =>
    unfold _year_weight
    norm_num
  | some v =>
    unfold _year_weight
    exact Real.rpow_pos_of_pos (by norm_num) _

theorem addScore_pos {sc : List (String × ℝ)} {k : String} {w : ℝ}
    (hw : 0 < w) (hsc : ∀ p ∈ sc, 0 < p.2) :
    ∀ p ∈ addScore sc k w, 0 < p.2 := by
  induction sc with
  | nil =>
    intro p hp
    rw [addScore] at hp
    rcases List.mem_singleton.mp hp with rfl
    exact hw
  | cons q rest ih =>
    obtain ⟨k', v⟩ := q
    intro p hp
    rw [addScore] at hp
    have hv : 0 < v := hsc (k', v) (List.mem_cons_self (k', v) rest)
    by_cases hk : k' = k
    · rw [if_pos hk] at hp
      rcases List.mem_cons.mp hp with hq | hp
      · rw [hq]
        have : 0 < v + w := by positivity
        simpa using this
      · exact hsc p (List.mem_cons_of_mem (k', v) hp)
    · rw [if_neg hk] at hp
      rcases List.mem_cons.mp hp with hq | hp
      · rw [hq]
        simpa using hv
      · exact ih (fun r hr => hsc r (List.mem_cons_of_mem (k', v) hr)) p hp

theorem innerFold_pos {w : ℝ} (hw : 0 < w) (kws : List String) :
    ∀ sc, (∀ p ∈ sc, 0 < p.2) →
      ∀ p ∈ kws.foldl (fun sc2 kw => addScore sc2 kw w) sc, 0 < p.2 := by
  induction kws with
  | nil => intro sc hsc; exact hsc
  | cons kw rest ih =>
    intro sc hsc
    exact ih _ (addScore_pos hw hsc)

theorem accumulateScores_pos (kws : List String) (cy : Int) (hl : ℝ)
    (lines : List String) :
    ∀ p ∈ accumulateScores kws cy hl lines, 0 < p.2 := by
  unfold accumulateScores
  suffices h : ∀ acc : List (String × ℝ), (∀ p ∈ acc, 0 < p.2) →
      ∀ p ∈ lines.foldl
        (fun sc line =>
          (kws.filter (fun kw => strIn (lowerStr kw) (lowerStr line))).foldl
            (fun sc2 kw =>
              addScore sc2 kw
                (_year_weight (_extract_year_from_line line) cy hl)) sc)
        acc, 0 < p.2 by
    exact h [] (by intro p hp; cases hp)
  induction lines with
  | nil => intro acc hacc; exact hacc
  | cons line rest ih =>
    intro acc hacc
    exact ih _ (innerFold_pos (year_weight_pos _ _ _) _ _ hacc)

theorem foldl_max_le (l : List (String × ℝ)) (a : ℝ) :
    a ≤ l.foldl (fun acc p => max acc p.2) a
      ∧ ∀ p ∈ l, p.2 ≤ l.foldl (fun acc p => max acc p.2) a := by
  induction l generalizing a with
  | nil => exact ⟨le_refl a, by intro p hp; cases hp⟩
  | cons q rest ih =>
    obtain ⟨h1, h2⟩ := ih (max a q.2)
    refine ⟨le_trans (le_max_left a q.2) h1, ?_⟩
    intro p hp
    rcases List.mem_cons.mp hp with rfl | hp
    · exact le_trans (le_max_right a p.2) h1
    · exact h2 p hp

theorem foldl_max_attained (l : List (String × ℝ)) (a : ℝ) :
    l.foldl (fun acc p => max acc p.2) a = a
      ∨ ∃ p ∈ l, l.foldl (fun acc p => max acc p.2) a = p.2 := by
  induction l generalizing a with
  | nil => exact Or.inl rfl
  | cons q rest ih =>
    rcases ih (max a q.2) with h | ⟨p, hp, hval⟩
    · rcases max_choice a q.2 with hc | hc
      · exact Or.inl (by rw [List.foldl_cons, h, hc])
      · exact Or.inr ⟨q, List.mem_cons_self q rest,
          by rw [List.foldl_cons, h, hc]⟩
    · exact Or.inr ⟨p, List.mem_cons_of_mem q hp, hval⟩

theorem round4R_nonneg {x : ℝ} (h : 0 ≤ x) : 0 ≤ round4R x := by
  unfold round4R
  have h1 : (0 : Int) ≤ round (x * 10000) := by
    rw [round_eq]
    have : ((1 : ℝ) / 2) ≤ x * 10000 + 1 / 2 := by nlinarith
    have h2 := Int.floor_mono this
    rw [show ⌊(1 : ℝ) / 2⌋ = 0 by norm_num] at h2
    exact h2
  have : ((0 : Int) : ℚ) ≤ (round (x * 10000) : ℚ) := by exact_mod_cast h1
  have hd : (0 : ℚ) ≤ ((round (x * 10000) : Int) : ℚ) / 10000 := by
    apply div_nonneg _ (by norm_num)
    exact_mod_cast h1
  simpa using hd

theorem round4R_le_one {x : ℝ} (h : x ≤ 1) : round4R x ≤ 1 := by
  unfold round4R
  have h1 : round (x * 10000) ≤ (10000 : Int) := by
    rw [round_eq]
    have hle : x * 10000 + 1 / 2 ≤ ((10000 : Int) : ℝ) + 1 / 2 := by
      push_cast
      nlinarith
    have h2 := Int.floor_mono hle
    rw [Int.floor_int_add, show ⌊(1 : ℝ) / 2⌋ = 0 by norm_num] at h2
    omega
  rw [div_le_one (by norm_num)]
  exact_mod_cast h1

theorem round4R_one : round4R 1 = 1 := by
  unfold round4R
  rw [one_mul]
  rw [show round ((10000 : ℝ)) = (10000 : Int) from round_ofNat 10000]
  norm_num

/-! ## Further helper lemmas -/

theorem filter_map_projLS (k : Int) (l : List RankedListing) :
    (l.map projLS).filter (fun x => x.2 == k) = (filterScore k l).map projLS := by
  induction l with
  | nil => rfl
  | cons r rest ih =>
    simp only [List.map_cons, List.filter_cons, filterScore] at ih ⊢
    by_cases hk : r.fit_score = k
    · rw [if_pos (by simp only [projLS, beq_iff_eq]; exact hk),
        if_pos (by simp only [beq_iff_eq]; exact hk)]
      rw [List.map_cons, ih]
    · rw [if_neg (by simp only [projLS, beq_iff_eq]; exact hk),
        if_neg (by simp only [beq_iff_eq]; exact hk)]
      exact ih

theorem filterScore_filter_ge (k : Int) (hk : 50 ≤ k)
    (l : List RankedListing) :
    filterScore k (l.filter (fun x => 50 ≤ x.fit_score)) = filterScore k l := by
  induction l with
  | nil => rfl
  | cons r rest ih =>
    simp only [List.filter_cons]
    by_cases hr : r.fit_score = k
    · rw [if_pos (by simp only [decide_eq_true_eq]; omega)]
      simp only [filterScore, List.filter_cons]
      rw [if_pos (by simp only [beq_iff_eq]; exact hr),
        if_pos (by simp only [beq_iff_eq]; exact hr)]
      simp only [filterScore] at ih
      rw [ih]
    · by_cases h50 : 50 ≤ r.fit_score
      · rw [if_pos (by simp only [decide_eq_true_eq]; exact h50)]
        simp only [filterScore, List.filter_cons]
        rw [if_neg (by simp only [beq_iff_eq]; exact hr),
          if_neg (by simp only [beq_iff_eq]; exact hr)]
        simpa only [filterScore] using ih
      · rw [if_neg (by simp only [decide_eq_true_eq]; exact h50)]
        simp only [filterScore, List.filter_cons]
        rw [if_neg (by simp only [beq_iff_eq]; exact hr)]
        simpa only [filterScore] using ih

theorem mapNorm_bounds (l : List (String × ℝ)) (m : ℝ) (hm : 0 < m)
    (hpos : ∀ p ∈ l, 0 < p.2) (hle : ∀ p ∈ l, p.2 ≤ m) :
    ∀ q ∈ l.map (fun p => (p.1, round4R (p.2 / (if m = 0 then 1 else m)))),
      0 ≤ q.2 ∧ q.2 ≤ 1 := by
  intro q hq
  obtain ⟨p, hp, rfl⟩ := List.mem_map.mp hq
  have hrw : (if m = 0 then (1 : ℝ) else m) = m := if_neg (ne_of_gt hm)
  rw [hrw]
  constructor
  · exact round4R_nonneg (div_nonneg (le_of_lt (hpos p hp)) (le_of_lt hm))
  · exact round4R_le_one ((div_le_one hm).mpr (hle p hp))

theorem mapNorm_attains (l : List (String × ℝ)) (m : ℝ) (p₀ : String × ℝ)
    (hmem : p₀ ∈ l) (hval : p₀.2 = m) (hm : 0 < m) :
    ∃ q ∈ l.map (fun p => (p.1, round4R (p.2 / (if m = 0 then 1 else m)))),
      q.2 = 1 := by
  refine ⟨(p₀.1, round4R (p₀.2 / (if m = 0 then 1 else m))),
    List.mem_map_of_mem _ hmem, ?_⟩
  have hrw : (if m = 0 then (1 : ℝ) else m) = m := if_neg (ne_of_gt hm)
  rw [hrw, hval, div_self (ne_of_gt hm)]
  exact round4R_one

theorem pyStrKeywords_ok {l : List Json}
    (h : ∀ e ∈ l, ∃ s, e = Json.str s) :
    ∃ ks, pyStrKeywords l = Except.ok ks := by
  induction l with
  | nil => exact ⟨[], rfl⟩
  | cons e rest ih =>
    obtain ⟨s, rfl⟩ := h e (List.mem_cons_self e rest)
    obtain ⟨ks, hks⟩ := ih (fun x hx => h x (List.mem_cons_of_mem _ hx))
    refine ⟨s :: ks, ?_⟩
    rw [pyStrKeywords, hks]

/-! ## Claim theorems -/

/-- C3: For every profile and non-empty listing batch, whenever
`MatchRanker.rank` takes the fallback path its output contains exactly one
`RankedListing` per input listing: the underlying listings are a
permutation of the input (so the output length equals the input listing
count and no listing is dropped), and no `fit_score` threshold filter is
applied on this path. -/
theorem C3_fallback_no_drop (p : Profile) (calls : List Listing)
    (res : Except String Json) (e : String)
    (h : serviceRank p calls res = Except.error e) :
    ((rank_calls p calls res).map RankedListing.listing).Perm calls
    ∧ (rank_calls p calls res).length = calls.length := by
  cases calls with
  | nil => exact ⟨List.Perm.refl _, rfl⟩
  | cons c cs =>
    have hr : rank_calls p (c :: cs) res = fallbackAll p (c :: cs) e := by
      simp only [rank_calls, h]
    rw [hr]
    exact ⟨fallbackAll_map_listing_perm p (c :: cs) e,
      fallbackAll_length p (c :: cs) e⟩

/-- Witness for C3 at a concrete failed service call on a two-listing
batch. -/
theorem C3_witness :
    serviceRank c3Profile [c3L1, c3L2] (Except.error "boom")
      = Except.error "boom"
    ∧ ((rank_calls c3Profile [c3L1, c3L2]
        (Except.error "boom")).map RankedListing.listing).Perm [c3L1, c3L2]
    ∧ (rank_calls c3Profile [c3L1, c3L2] (Except.error "boom")).length = 2 := by
  have h : serviceRank c3Profile [c3L1, c3L2] (Except.error "boom")
      = Except.error "boom" := rfl
  have hmain := C3_fallback_no_drop c3Profile [c3L1, c3L2]
    (Except.error "boom") "boom" h
  exact ⟨h, hmain.1, hmain.2⟩

/-- C10: if at least one service entry survives validation and merge but
every merged entry's final `fit_score` is below 50, `rank_calls` returns
the empty sequence from the service path (the zero-survivors failure check
runs before the `fit_score ≥ 50` threshold filter, so no fallback is
triggered and the result is `[]`, not a fallback-scored batch). -/
theorem C10_threshold_after_failure_check (p : Profile)
    (calls : List Listing) (data : Json) (items : List Json)
    (merged : List RankedListing)
    (h1 : getRankedList data = Except.ok items)
    (h2 : mergeRanked p calls items = Except.ok merged)
    (h3 : merged ≠ [])
    (h4 : ∀ r ∈ merged, r.fit_score < 50) :
    rank_calls p calls (Except.ok data) = [] := by
  cases calls with
  | nil => rfl
  | cons c cs =>
    have hserv : serviceRank p (c :: cs) (Except.ok data)
        = Except.ok ((sortByScoreDesc merged).filter
            (fun x => 50 ≤ x.fit_score)) := by
      cases merged with
      | nil => exact absurd rfl h3
      | cons m ms => simp only [serviceRank, h1, h2]
    have hfilter : (sortByScoreDesc merged).filter
        (fun x => 50 ≤ x.fit_score) = [] := by
      refine List.filter_eq_nil_iff.mpr ?_
      intro a ha
      have hmem : a ∈ merged := (sort_perm merged).mem_iff.mp ha
      have := h4 a hmem
      simp only [decide_eq_true_eq]
      omega
    simp only [rank_calls, hserv, hfilter]

section ConcreteEvaluation

attribute [local semireducible] Rat.add Rat.sub Rat.mul Rat.inv
  Rat.ofScientific

/-- Witness for C10: one entry merges with score 30 and the ranker returns
the empty sequence. -/
theorem C10_witness :
    rank_calls c10Profile [c10Listing] (Except.ok c10Data) = [] := by
  refine C10_threshold_after_failure_check c10Profile [c10Listing] c10Data
    [c10Item] [c10Merged] rfl (by rfl) (by simp) ?_
  intro r hr
  rw [List.mem_singleton] at hr
  subst hr
  decide

/-- C7: the fallback scorer computes `fit_score` as the clamped-rounded sum
of the token-overlap base score (5 when either token set built by
lowercase/strip/split/length-3 tokenization is empty, else
`min(100, 10 + 6·|A ∩ B|)`) and the `cap=20` recency bonus, always landing
in `[0, 100]` with `rank_mode = "fallback"`; in particular the profile
`{methods_keywords: ["robotics", "control"], themes: []}` against the
listing `{title: "Robotics Control Grant",
summary: "advanced control systems", agency: "NSF"}` with no recency
weights scores exactly 22. -/
theorem C7_fallback_scoring :
    (∀ (p : Profile) (l : Listing),
        (_fallback_score p l).fit_score
          = max 0 (min 100 (pyRound ((fallbackBaseScore p l : ℚ)
              + _recency_overlap_bonus p l 20 6)))
        ∧ fallbackBaseScore p l
          = (if (_normalize_tokens (profBlob p)).isEmpty
                ∨ (_normalize_tokens (callBlob l)).isEmpty then 5
             else min 100 (10 + 6 * ((interTokens
               (_normalize_tokens (profBlob p))
               (_normalize_tokens (callBlob l))).length : Int)))
        ∧ 0 ≤ (_fallback_score p l).fit_score
        ∧ (_fallback_score p l).fit_score ≤ 100
        ∧ (_fallback_score p l).rank_mode = "fallback")
    ∧ (_fallback_score ⟨[], ["robotics", "control"], []⟩
        ⟨"NSF", "Robotics Control Grant", "", "", "",
          "advanced control systems", ""⟩).fit_score = 22
    ∧ (_fallback_score ⟨[], ["robotics", "control"], []⟩
        ⟨"NSF", "Robotics Control Grant", "", "", "",
          "advanced control systems", ""⟩).rank_mode = "fallback" := by
  refine ⟨?_, by decide, rfl⟩
  intro p l
  refine ⟨rfl, rfl, le_max_left 0 _, max_le (by norm_num)
    (min_le_left 100 _), rfl⟩

end ConcreteEvaluation

/-- C9 (supporting theorem for the code bug): the record produced by
`_normalize_call` has no `source` key at all — the raw `source` value is
consumed only as a fallback for `agency` — so the spec's canonical-schema
invariant that every normalized listing carries its provenance tag is
violated by the code. -/
theorem C9_source_dropped :
    jsonGet (_normalize_call
        [("title", Json.str "T"), ("source", Json.str "nsf_rss")] "")
      "source" = none
    ∧ jsonGet (_normalize_call
        [("title", Json.str "T"), ("source", Json.str "nsf_rss")] "")
      "agency" = some (Json.str "nsf_rss")
    ∧ jsonGet (_normalize_call
        [("title", Json.str "T"), ("source", Json.str "nsf_rss")] "")
      "title" = some (Json.str "T")
    ∧ jsonGet (_normalize_call
        [("title", Json.str "T"), ("source", Json.str "nsf_rss")] "")
      "summary" = some (Json.str "") := by
  exact ⟨rfl, rfl, rfl, rfl⟩

/-- C1 (amended): for every profile and non-empty listing batch, when the
service responds with the parseable object `{"ranked": []}` the merge loop
produces nothing, which `rank_calls` treats as a service failure
(`"LLM ranked list could not be merged."`): it returns the fallback-scored
batch — the same recovery as for an unparseable response — and not the
empty sequence. -/
theorem C1_empty_ranked_falls_back (p : Profile) (calls : List Listing)
    (h : calls ≠ []) :
    rank_calls p calls (Except.ok (Json.obj [("ranked", Json.arr [])]))
      = fallbackAll p calls "LLM ranked list could not be merged."
    ∧ rank_calls p calls (Except.ok (Json.obj [("ranked", Json.arr [])]))
      ≠ [] := by
  cases calls with
  | nil => exact absurd rfl h
  | cons c cs =>
    have hserv : serviceRank p (c :: cs)
        (Except.ok (Json.obj [("ranked", Json.arr [])]))
        = Except.error "LLM ranked list could not be merged." := rfl
    have hr : rank_calls p (c :: cs)
        (Except.ok (Json.obj [("ranked", Json.arr [])]))
        = fallbackAll p (c :: cs) "LLM ranked list could not be merged." := by
      simp only [rank_calls, hserv]
    refine ⟨hr, ?_⟩
    rw [hr]
    intro hnil
    have hlen := fallbackAll_length p (c :: cs)
      "LLM ranked list could not be merged."
    rw [hnil] at hlen
    simp at hlen

/-- C1 counterexample: for the parseable response `{"ranked": []}` on a
one-listing batch the ranker does NOT return the empty ranked sequence: it
returns one fallback-scored entry (`rank_mode = "fallback"`), i.e. the
empty-list response is handled exactly like an unparseable one. -/
theorem C1_counterexample :
    (rank_calls c1Profile [c1Listing] c1Response).length = 1
    ∧ ((rank_calls c1Profile [c1Listing] c1Response).head?.map
        RankedListing.rank_mode) = some "fallback" := by
  exact ⟨rfl, rfl⟩

/-- Witness for the amended C1 at a concrete non-empty batch. -/
theorem C1_witness :
    rank_calls c1Profile [c1Listing] c1Response
      = fallbackAll c1Profile [c1Listing]
        "LLM ranked list could not be merged."
    ∧ rank_calls c1Profile [c1Listing] c1Response ≠ [] :=
  C1_empty_ranked_falls_back c1Profile [c1Listing] (by simp)

/-- C2 (amended): every `RankedListing` produced by the service path of
`rank_calls` is a copy of one original input listing (selected by the
entry's validated `idx`) tagged `rank_mode = "llm"` — no fabricated
listings appear.  The service-path output need *not* be a subsequence of
the input listings, because entries are ordered by descending score with
ties in service-response order (see the counterexample). -/
theorem C2_service_entries_are_copies (p : Profile) (calls : List Listing)
    (res : Except String Json) (out : List RankedListing)
    (r : RankedListing)
    (hok : serviceRank p calls res = Except.ok out)
    (hr : r ∈ rank_calls p calls res) :
    r.listing ∈ calls ∧ r.rank_mode = "llm" := by
  cases calls with
  | nil =>
    rw [show rank_calls p [] res = [] from rfl] at hr
    cases hr
  | cons c cs =>
    have hrank : rank_calls p (c :: cs) res = out := by
      simp only [rank_calls, hok]
    rw [hrank] at hr
    obtain ⟨merged, hne, hmem, hshape⟩ := serviceRank_ok_shape hok
    rw [hshape] at hr
    have hr2 : r ∈ sortByScoreDesc merged := List.mem_of_mem_filter hr
    have hr3 : r ∈ merged := (sort_perm merged).mem_iff.mp hr2
    exact hmem r hr3

section ConcreteEvaluationB

attribute [local semireducible] Rat.add Rat.sub Rat.mul Rat.inv
  Rat.ofScientific

/-- C2 counterexample: with two distinct listings and a service response
ranking index 1 (score 90) before index 0 (score 80), the service-path
output lists the second input listing before the first, which is not a
subsequence of the input sequence. -/
theorem C2_counterexample :
    ((rank_calls c2Profile [c2L1, c2L2] c2Response).map
      RankedListing.listing) = [c2L2, c2L1]
    ∧ ¬ (([c2L2, c2L1] : List Listing).Sublist [c2L1, c2L2]) := by
  constructor
  · rfl
  · intro hsub
    have heq := hsub.eq_of_length rfl
    have hhead : c2L2 = c2L1 := by injection heq
    exact absurd hhead (by decide)

/-- Witness for the amended C2 at a concrete successful service path. -/
theorem C2_witness :
    serviceRank c2Profile [c2wListing] c2wResponse = Except.ok [c2wEntry]
    ∧ c2wEntry.listing ∈ [c2wListing] ∧ c2wEntry.rank_mode = "llm" := by
  have hok : serviceRank c2Profile [c2wListing] c2wResponse
      = Except.ok [c2wEntry] := by rfl
  have hmem : c2wEntry ∈ rank_calls c2Profile [c2wListing] c2wResponse := by
    have h : rank_calls c2Profile [c2wListing] c2wResponse = [c2wEntry] := by
      rfl
    rw [h]
    exact List.mem_singleton_self c2wEntry
  have hmain := C2_service_entries_are_copies c2Profile [c2wListing]
    c2wResponse [c2wEntry] c2wEntry hok hmem
  exact ⟨hok, hmain.1, hmain.2⟩

end ConcreteEvaluationB

/-- C8 (amended): the sequence returned by `rank_calls` is always sorted
descending by `fit_score` (both paths).  On the fallback path, entries with
equal score appear in original input order (stable sort over the
input-ordered batch).  On the service path, entries with equal score appear
in the order of the merged service-response entries — not necessarily in
input order (see the counterexample). -/
theorem C8_sorted_and_tie_order :
    (∀ (p : Profile) (calls : List Listing) (res : Except String Json),
        (rank_calls p calls res).Pairwise scoreGe)
    ∧ (∀ (p : Profile) (calls : List Listing) (res : Except String Json)
        (e : String) (k : Int),
        serviceRank p calls res = Except.error e →
        (((rank_calls p calls res).map projLS).filter (fun q => q.2 == k))
          = ((calls.map (_fallback_score p)).map projLS).filter
              (fun q => q.2 == k))
    ∧ (∀ (p : Profile) (calls : List Listing) (data : Json)
        (items : List Json) (merged : List RankedListing) (k : Int),
        getRankedList data = Except.ok items →
        mergeRanked p calls items = Except.ok merged → merged ≠ [] →
        50 ≤ k →
        filterScore k (rank_calls p calls (Except.ok data))
          = filterScore k merged) := by
  refine ⟨?_, ?_, ?_⟩
  · intro p calls res
    cases calls with
    | nil => exact List.Pairwise.nil
    | cons c cs =>
      cases hs : serviceRank p (c :: cs) res with
      | ok out =>
        have hrank : rank_calls p (c :: cs) res = out := by
          simp only [rank_calls, hs]
        rw [hrank]
        obtain ⟨merged, hne, hmem, hshape⟩ := serviceRank_ok_shape hs
        rw [hshape]
        exact (sort_pairwise merged).sublist (List.filter_sublist _)
      | error e =>
        have hrank : rank_calls p (c :: cs) res = fallbackAll p (c :: cs) e := by
          simp only [rank_calls, hs]
        rw [hrank]
        exact fallbackAll_pairwise p (c :: cs) e
  · intro p calls res e k hs
    cases calls with
    | nil => rfl
    | cons c cs =>
      have hrank : rank_calls p (c :: cs) res = fallbackAll p (c :: cs) e := by
        simp only [rank_calls, hs]
      rw [hrank]
      unfold fallbackAll
      rw [prefixError_map_projLS, filter_map_projLS, filter_map_projLS,
        sort_filterScore]
  · intro p calls data items merged k h1 h2 hne hk
    cases calls with
    | nil =>
      rw [mergeRanked_nil_calls] at h2
      injection h2 with h2'
      exact absurd h2'.symm hne
    | cons c cs =>
      have hserv : serviceRank p (c :: cs) (Except.ok data)
          = Except.ok ((sortByScoreDesc merged).filter
              (fun x => 50 ≤ x.fit_score)) := by
        cases merged with
        | nil => exact absurd rfl hne
        | cons m ms => simp only [serviceRank, h1, h2]
      have hrank : rank_calls p (c :: cs) (Except.ok data)
          = (sortByScoreDesc merged).filter (fun x => 50 ≤ x.fit_score) := by
        simp only [rank_calls, hserv]
      rw [hrank, filterScore_filter_ge k hk, sort_filterScore]

section ConcreteEvaluationC

attribute [local semireducible] Rat.add Rat.sub Rat.mul Rat.inv
  Rat.ofScientific

/-- C8 counterexample: two distinct listings, service response ranks index
1 then index 0 with the same final score 60; the service-path output holds
two equal-score entries in response order (second listing first), so their
relative order does NOT match their order in the original input
sequence. -/
theorem C8_counterexample :
    ((rank_calls c8Profile [c8L1, c8L2] c8Response).map
      (fun r => (r.listing.title, r.fit_score)))
      = [("Beta grant", 60), ("Alpha grant", 60)]
    ∧ c8L1.title ≠ c8L2.title := by
  exact ⟨by rfl, by decide⟩

/-- Witness for the amended C8 (fallback tie order) at a concrete failed
batch whose two fallback scores are equal. -/
theorem C8_witness :
    (((rank_calls c8Profile [c8L1, c8L2] (Except.error "x")).map
        projLS).filter (fun q => q.2 == 5))
      = (([c8L1, c8L2].map (_fallback_score c8Profile)).map projLS).filter
          (fun q => q.2 == 5) :=
  C8_sorted_and_tie_order.2.1 c8Profile [c8L1, c8L2] (Except.error "x") "x" 5
    (by rfl)

end ConcreteEvaluationC

/-- C4 (amended): `build_prof_profile` returns a `Profile` without raising
whenever the service response parses as a JSON value whose
`methods_keywords` entries (when the parsed value is an object carrying
that key as a list) are all strings — in the degraded cases (non-object
value, missing or non-list key) the keys default to empty sequences and the
builder still succeeds.  But when `llm_json` exhausts its retries on an
unparseable response it raises, and `build_prof_profile` propagates that
exception instead of degrading (there is no try/except around the call at
profile.py:35, and the caller `cached_profile` in app.py does not catch
either). -/
theorem C4_builder_degraded (pubs props : String) (cy : Int) (j : Json)
    (hm : ∀ e ∈ jsonMethods j, ∃ s, e = Json.str s) :
    (∃ prof, build_prof_profile pubs props cy (Except.ok j)
        = Except.ok prof)
    ∧ (∀ msg, build_prof_profile pubs props cy (Except.error msg)
        = Except.error msg) := by
  refine ⟨?_, fun msg => rfl⟩
  cases j with
  | obj kvs =>
    obtain ⟨ks, hks⟩ := pyStrKeywords_ok hm
    refine ⟨Json.obj (jsonSet kvs "keyword_recency_weights" (jsonOfWeights
      (_build_keyword_recency_weights pubs ks cy 5))), ?_⟩
    simp only [build_prof_profile, jsonMethods] at hks ⊢
    rw [hks]
  | null => exact ⟨_, rfl⟩
  | bool b => exact ⟨_, rfl⟩
  | int n => exact ⟨_, rfl⟩
  | float q => exact ⟨_, rfl⟩
  | str s => exact ⟨_, rfl⟩
  | arr xs => exact ⟨_, rfl⟩

/-- C4 counterexample: an unparseable response makes `llm_json` raise after
its retries, and `build_prof_profile` propagates the exception — it does
not return a degraded profile. -/
theorem C4_counterexample :
    build_prof_profile "2021 deep learning" "" 2026
        (Except.error
          "Failed to parse JSON. Last error: Expecting value. Model output snippet: not json")
      = Except.error
          "Failed to parse JSON. Last error: Expecting value. Model output snippet: not json" :=
  rfl

/-- Witness for the amended C4: a parseable non-object response degrades
but still yields a profile, and an unparseable one propagates an error. -/
theorem C4_witness :
    (∃ prof, build_prof_profile "pubs text" "props" 2026
        (Except.ok (Json.str "no json object")) = Except.ok prof)
    ∧ build_prof_profile "pubs text" "props" 2026 (Except.error "boom")
      = Except.error "boom" := by
  have h := C4_builder_degraded "pubs text" "props" 2026
    (Json.str "no json object") (by intro e he; simp [jsonMethods] at he)
  exact ⟨h.1, h.2 "boom"⟩

/-- C5: for every keyword sequence, publication text, current year and
positive half-life, every value of the mapping returned by
`_build_keyword_recency_weights` lies in `[0, 1]`, and when the mapping is
non-empty at least one value is exactly `1` (each accumulated score is
divided by the maximum accumulated score and rounded to 4 decimals). -/
theorem C5_recency_weights_normalized (pub_text : String) (kws : List String)
    (cy : Int) (hl : ℝ) (hhl : 0 < hl) :
    (∀ q ∈ _build_keyword_recency_weights pub_text kws cy hl,
        0 ≤ q.2 ∧ q.2 ≤ 1)
    ∧ (_build_keyword_recency_weights pub_text kws cy hl ≠ [] →
        ∃ q ∈ _build_keyword_recency_weights pub_text kws cy hl, q.2 = 1) := by
  cases hsc : accumulateScores ((kws.map (fun k => trimStr k)).filter
      (fun k => k ≠ "")) cy hl (_split_pub_lines pub_text) with
  | nil =>
    have hout : _build_keyword_recency_weights pub_text kws cy hl = [] := by
      simp only [_build_keyword_recency_weights, hsc]
    rw [hout]
    constructor
    · intro q hq
      cases hq
    · intro hne
      exact absurd rfl hne
  | cons s₀ rest =>
    have hpos : ∀ p ∈ s₀ :: rest, 0 < p.2 := by
      rw [← hsc]
      exact accumulateScores_pos _ cy hl _
    have hout : _build_keyword_recency_weights pub_text kws cy hl
        = (s₀ :: rest).map (fun p => (p.1, round4R (p.2 /
            (if rest.foldl (fun acc p => max acc p.2) s₀.2 = 0 then 1
             else rest.foldl (fun acc p => max acc p.2) s₀.2)))) := by
      simp only [_build_keyword_recency_weights, hsc]
    obtain ⟨hle0, hleRest⟩ := foldl_max_le rest s₀.2
    have hmpos : 0 < rest.foldl (fun acc p => max acc p.2) s₀.2 :=
      lt_of_lt_of_le (hpos s₀ (List.mem_cons_self s₀ rest)) hle0
    have hle : ∀ p ∈ s₀ :: rest,
        p.2 ≤ rest.foldl (fun acc p => max acc p.2) s₀.2 := by
      intro p hp
      rcases List.mem_cons.mp hp with rfl | hp
      · exact hle0
      · exact hleRest p hp
    constructor
    · rw [hout]
      exact mapNorm_bounds (s₀ :: rest) _ hmpos hpos hle
    · intro _
      rw [hout]
      rcases foldl_max_attained rest s₀.2 with hat | ⟨p, hp, hat⟩
      · exact mapNorm_attains (s₀ :: rest) _ s₀
          (List.mem_cons_self s₀ rest) hat.symm hmpos
      · exact mapNorm_attains (s₀ :: rest) _ p
          (List.mem_cons_of_mem s₀ hp) hat.symm hmpos

/-- Witness for C5 at a concrete one-keyword publication text: all weights
are in `[0, 1]` and one weight is exactly `1`. -/
theorem C5_witness :
    (∀ q ∈ _build_keyword_recency_weights "ml study" ["ml"] 2026 5,
        0 ≤ q.2 ∧ q.2 ≤ 1)
    ∧ ∃ q ∈ _build_keyword_recency_weights "ml study" ["ml"] 2026 5,
        q.2 = 1 := by
  have h := C5_recency_weights_normalized "ml study" ["ml"] 2026 5
    (by norm_num)
  refine ⟨h.1, h.2 ?_⟩
  have hacc : accumulateScores ((["ml"].map (fun k => trimStr k)).filter
      (fun k => k ≠ "")) 2026 5 (_split_pub_lines "ml study")
      = [("ml", _year_weight (_extract_year_from_line "ml study") 2026 5)] :=
    rfl
  simp only [_build_keyword_recency_weights, hacc]
  simp

/-- C6 (amended): for every publication line, the year weight used by the
recency engine is `0.25` when the line has no word-bounded `19xx`/`20xx`
token, and also when the first such token denotes a year outside
`[1950, 2100]` (the guard at profile.py:64, absent from the original
claim).  When the first token's year `y` lies in `[1950, 2100]` the weight
is `0.5 ^ (max(0, current_year - y) / half_life_years)`; consequently a
line dated exactly `half_life_years` before `current_year` carries exactly
half the weight of a current line, and future years clamp to weight 1. -/
theorem C6_year_weight_decay (line : String) (cy : Int) (hl : ℝ) (y : Nat)
    (hhl : 0 < hl) :
    (scanYear none line.toList = none →
        _year_weight (_extract_year_from_line line) cy hl = 0.25)
    ∧ (scanYear none line.toList = some y → 1950 ≤ y → y ≤ 2100 →
        _year_weight (_extract_year_from_line line) cy hl
          = (0.5 : ℝ) ^ ((((max 0 (cy - (y : Int))) : Int) : ℝ) / hl))
    ∧ (scanYear none line.toList = some y → (y < 1950 ∨ 2100 < y) →
        _year_weight (_extract_year_from_line line) cy hl = 0.25)
    ∧ ((((cy - (y : Int)) : Int) : ℝ) = hl →
        _year_weight (some (y : Int)) cy hl
          = (1 / 2) * _year_weight (some cy) cy hl)
    ∧ (cy < (y : Int) → _year_weight (some (y : Int)) cy hl = 1) := by
  refine ⟨?_, ?_, ?_, ?_, ?_⟩
  · intro h
    simp only [_extract_year_from_line, h]
    rfl
  · intro h hlo hhi
    simp only [_extract_year_from_line, h]
    rw [if_pos ⟨hlo, hhi⟩]
    rfl
  · intro h hrange
    simp only [_extract_year_from_line, h]
    rw [if_neg (by omega)]
    rfl
  · intro hcast
    have hzpos : (0 : Int) < cy - (y : Int) := by
      have hr : (0 : ℝ) < (((cy - (y : Int)) : Int) : ℝ) := by
        rw [hcast]
        exact hhl
      exact_mod_cast hr
    simp only [_year_weight]
    rw [max_eq_right (le_of_lt hzpos)]
    rw [show ((((cy - (y : Int)) : Int) : ℝ) / hl) = 1 from by
      rw [hcast]; exact div_self (ne_of_gt hhl)]
    rw [show max 0 (cy - cy) = (0 : Int) from by omega]
    rw [Real.rpow_one]
    norm_num [Real.rpow_zero]
  · intro hfut
    simp only [_year_weight]
    rw [show max 0 (cy - (y : Int)) = (0 : Int) from by omega]
    norm_num [Real.rpow_zero]

/-- C6 counterexample: the line `"supported 1940"` has `1940` as its first
`19xx` token, so by the claim its weight at `current_year = 1940` should be
`0.5 ^ 0 = 1`; the code's guard `1950 <= y <= 2100` discards the year and
yields the unknown-year weight `0.25` instead. -/
theorem C6_counterexample :
    scanYear none ("supported 1940").toList = some 1940
    ∧ _extract_year_from_line "supported 1940" = none
    ∧ _year_weight (_extract_year_from_line "supported 1940") 1940 5 = 0.25
    ∧ (0.25 : ℝ)
      ≠ (0.5 : ℝ) ^ ((((max 0 ((1940 : Int) - 1940)) : Int) : ℝ) / 5) := by
  refine ⟨by decide, by decide, rfl, ?_⟩
  have h : ((((max 0 ((1940 : Int) - 1940)) : Int) : ℝ) / 5) = 0 := by
    norm_num
  rw [h, Real.rpow_zero]
  norm_num

/-- Witness for the amended C6: a 1990 publication at current year 1995
with half-life 5 carries exactly half the weight of a current one, and the
in-range year 1990 is extracted and decayed by the stated formula. -/
theorem C6_witness :
    _year_weight (some (1990 : Int)) 1995 5
      = (1 / 2) * _year_weight (some (1995 : Int)) 1995 5
    ∧ _year_weight (_extract_year_from_line "pub 1990") 1995 5
      = (0.5 : ℝ) ^ ((((max 0 ((1995 : Int) - 1990)) : Int) : ℝ) / 5) := by
  have h := C6_year_weight_decay "pub 1990" 1995 5 1990 (by norm_num)
  constructor
  · exact h.2.2.2.1 (by norm_num)
  · exact h.2.1 (by decide) (by norm_num) (by norm_num)
